import Mathlib

/-!
Shallow embedding of the ConnectedDotPlot component (the d3-based
implementation in src/src/ConnectedDotPlot.tsx: `sortData`,
`formatNumber`, `calculateLabelSkip`, margins and scales, `drawElements`
and the zoom handler), together with theorems settling the claims about
its data-to-geometry pipeline.

Conventions of the embedding:
* JS numbers are modelled as `ℚ`; `NaN` (the result of `Number(x)` on an
  absent or non-numeric cell) is modelled by `Option ℚ` with `none = NaN`
  at the points where the source can produce it.
* `-Infinity` (the result of `Math.max()` on an empty list) is modelled
  by `Option` with `none = -Infinity` in `maxLabelLengthE`.
* JS `Array.prototype.sort` with a comparator is modelled as a stable
  insertion sort; per ES2019 the sort is stable and, for a consistent
  comparator, its output is the unique stable order.  A comparator value
  of `NaN` is coerced to `+0` by the `SortCompare` abstract operation,
  which the model reflects in `jsLe`.
-/

namespace ConnectedDotPlot

/-- One row of the host's tabular result: `row[0]?.value` is the category
label, `row[1]?.value` and `row[2]?.value` the two measure cells.  A cell
whose `Number(...)` conversion would be `NaN` (absent or non-numeric) is
`none`. -/
structure Row where
  cat : Option String
  c1 : Option ℚ
  c2 : Option ℚ
deriving DecidableEq

/-- `Number(x?.value) || 0` : the coercion used in the geometry code
(`lineData`, dot `cx`, the x-scale domain).  `none` (NaN) becomes `0`;
a numeric value is kept (`0 || 0` is `0`, so `getD` is exact). -/
def toNum0 (o : Option ℚ) : ℚ := o.getD 0

/-- `String(d[0]?.value)` : a missing category renders as the string
"undefined". -/
def catStr (o : Option String) : String := o.getD "undefined"

/-- Stable insertion of `x` into `l`: `x` is placed before the first `y`
with `le x y = true`.  For elements comparing equal the earlier element
stays first, matching a stable JS sort. -/
def jsInsert (le : α → α → Bool) (x : α) : List α → List α
  | [] => [x]
  | y :: ys => if le x y then x :: y :: ys else y :: jsInsert le x ys

/-- Stable sort modelling `Array.prototype.sort(comparator)`. -/
def jsSortStable (le : α → α → Bool) : List α → List α
  | [] => []
  | x :: xs => jsInsert le x (jsSortStable le xs)

/-- Subtraction on JS numbers with NaN: `NaN` on either side propagates. -/
def subOpt : Option ℚ → Option ℚ → Option ℚ
  | some x, some y => some (x - y)
  | _, _ => none

/-- Comparator of the `'Ascending'` case of `sortData`:
`Number(a[1]?.value) - Number(b[1]?.value)` (note: no `|| 0` fallback). -/
def cmpAsc (a b : Row) : Option ℚ := subOpt a.c1 b.c1

/-- Comparator of the `'Descending'` case of `sortData`:
`Number(b[1]?.value) - Number(a[1]?.value)`. -/
def cmpDesc (a b : Row) : Option ℚ := subOpt b.c1 a.c1

/-- Comparator of the `'DifferenceAscending'` case of `sortData`:
`(Number(a[2]?.value) - Number(a[1]?.value)) - (Number(b[2]?.value) - Number(b[1]?.value))`. -/
def cmpDiffAsc (a b : Row) : Option ℚ := subOpt (subOpt a.c2 a.c1) (subOpt b.c2 b.c1)

/-- Comparator of the `'DifferenceDescending'` case of `sortData`. -/
def cmpDiffDesc (a b : Row) : Option ℚ := subOpt (subOpt b.c2 b.c1) (subOpt a.c2 a.c1)

/-- The `SortCompare` step of the ES specification: a comparator result of
`NaN` is coerced to `+0`; `a` may stay before `b` exactly when the
comparator result is `≤ 0`. -/
def jsLe (c : α → α → Option ℚ) (a b : α) : Bool :=
  match c a b with
  | none => true
  | some v => decide (v ≤ 0)

/-- `sortData` of the d3 implementation: copies the array and sorts by the
comparator selected by the sorting style; any other style returns the
data in its original order. -/
def sortData (data : List Row) (sortingStyle : String) : List Row :=
  if sortingStyle = "Ascending" then jsSortStable (jsLe cmpAsc) data
  else if sortingStyle = "Descending" then jsSortStable (jsLe cmpDesc) data
  else if sortingStyle = "DifferenceAscending" then jsSortStable (jsLe cmpDiffAsc) data
  else if sortingStyle = "DifferenceDescending" then jsSortStable (jsLe cmpDiffDesc) data
  else data

theorem jsInsert_perm (le : α → α → Bool) (x : α) (l : List α) :
    List.Perm (jsInsert le x l) (x :: l) := by
  induction l with
  | nil => simp [jsInsert]
  | cons y ys ih =>
    by_cases h : le x y
    · simp [jsInsert, h]
    · simp only [jsInsert, h, Bool.false_eq_true, if_false]
      exact (ih.cons y).trans (List.Perm.swap x y ys)

theorem jsSortStable_perm (le : α → α → Bool) (l : List α) :
    List.Perm (jsSortStable le l) l := by
  induction l with
  | nil => simp [jsSortStable]
  | cons x xs ih =>
    exact (jsInsert_perm le x (jsSortStable le xs)).trans (ih.cons x)

theorem mem_jsInsert {le : α → α → Bool} {x a : α} {l : List α} :
    a ∈ jsInsert le x l ↔ a = x ∨ a ∈ l := by
  have := (jsInsert_perm le x l).mem_iff (a := a)
  simpa using this

theorem mem_jsSortStable {le : α → α → Bool} {a : α} {l : List α} :
    a ∈ jsSortStable le l ↔ a ∈ l :=
  (jsSortStable_perm le l).mem_iff

theorem pairwise_jsInsert (le : α → α → Bool) (x : α) (l : List α)
    (hl : l.Pairwise fun a b => le a b = true)
    (hxl : ∀ b ∈ l, le x b = true ∨ le b x = true)
    (htx : ∀ b ∈ l, le x b = true → ∀ c ∈ l, le b c = true → le x c = true) :
    (jsInsert le x l).Pairwise fun a b => le a b = true := by
  induction l with
  | nil => simp [jsInsert]
  | cons y ys ih =>
    obtain ⟨hy, hys⟩ := List.pairwise_cons.mp hl
    by_cases h : le x y
    · simp only [jsInsert, h, if_true]
      refine List.Pairwise.cons ?_ hl
      intro z hz
      rcases List.mem_cons.mp hz with hzy | hzt
      · subst hzy; exact h
      · exact htx y (List.mem_cons_self y ys) h z (List.mem_cons_of_mem y hzt) (hy z hzt)
    · simp only [jsInsert, h, Bool.false_eq_true, if_false]
      refine List.Pairwise.cons ?_ ?_
      · intro z hz
        rcases mem_jsInsert.mp hz with hzx | hzt
        · subst hzx
          rcases hxl y (List.mem_cons_self y ys) with h1 | h1
          · exact absurd h1 h
          · exact h1
        · exact hy z hzt
      · exact ih hys
          (fun b hb => hxl b (List.mem_cons_of_mem y hb))
          (fun b hb h1 c hc h2 =>
            htx b (List.mem_cons_of_mem y hb) h1 c (List.mem_cons_of_mem y hc) h2)

theorem pairwise_jsSortStable (le : α → α → Bool) (l : List α)
    (htot : ∀ a ∈ l, ∀ b ∈ l, le a b = true ∨ le b a = true)
    (htrans : ∀ a ∈ l, ∀ b ∈ l, ∀ c ∈ l, le a b = true → le b c = true → le a c = true) :
    (jsSortStable le l).Pairwise fun a b => le a b = true := by
  induction l with
  | nil => simp [jsSortStable]
  | cons x xs ih =>
    have hmem : ∀ {a}, a ∈ jsSortStable le xs → a ∈ xs := fun h => mem_jsSortStable.mp h
    refine pairwise_jsInsert le x (jsSortStable le xs) ?_ ?_ ?_
    · exact ih (fun a ha b hb => htot a (by simp [ha]) b (by simp [hb]))
        (fun a ha b hb c hc => htrans a (by simp [ha]) b (by simp [hb]) c (by simp [hc]))
    · intro b hb
      exact htot x (by simp) b (by simp [hmem hb])
    · intro b hb h1 c hc h2
      exact htrans x (by simp) b (by simp [hmem hb]) c (by simp [hmem hc]) h1 h2

/-- Sortedness transfer: if on the elements of `l` the boolean comparator
agrees with a relation `R` that is total and transitive there, the stable
sort is pairwise `R`-ordered. -/
theorem pairwise_sort_of_iff (le : α → α → Bool) (R : α → α → Prop) (l : List α)
    (hiff : ∀ a ∈ l, ∀ b ∈ l, (le a b = true ↔ R a b))
    (htot : ∀ a ∈ l, ∀ b ∈ l, R a b ∨ R b a)
    (htrans : ∀ a ∈ l, ∀ b ∈ l, ∀ c ∈ l, R a b → R b c → R a c) :
    (jsSortStable le l).Pairwise R := by
  have h := pairwise_jsSortStable le l
    (fun a ha b hb => by
      rcases htot a ha b hb with h | h
      · exact Or.inl ((hiff a ha b hb).mpr h)
      · exact Or.inr ((hiff b hb a ha).mpr h))
    (fun a ha b hb c hc h1 h2 =>
      (hiff a ha c hc).mpr
        (htrans a ha b hb c hc ((hiff a ha b hb).mp h1) ((hiff b hb c hc).mp h2)))
  refine List.Pairwise.imp_of_mem ?_ h
  intro a b ha hb hab
  exact (hiff a (mem_jsSortStable.mp ha) b (mem_jsSortStable.mp hb)).mp hab

/-! Margins and layout (`const margin = { top: 20, right: 30, bottom: 30, left: 50 }`,
with a data-dependent left margin substituted per render). -/

def marginTop : ℚ := 20

def marginRight : ℚ := 30

def marginBottom : ℚ := 30

/-- `Math.max(...data.data.map(d => String(d[0]?.value).length))`.
`Math.max()` of an empty argument list is `-Infinity`, modelled as `none`. -/
def maxLabelLengthE (data : List Row) : Option ℕ :=
  match data.map (fun d => (catStr d.cat).length) with
  | [] => none
  | n :: ns => some (ns.foldl max n)

/-- `Math.min(40 + maxLabelLength * 8, 100)`; `none` (`-Infinity` for an
empty dataset) propagates, since `Math.min(-Infinity, 100) = -Infinity`. -/
def leftMarginE (data : List Row) : Option ℚ :=
  (maxLabelLengthE data).map fun n => min (40 + (n : ℚ) * 8) 100

/-- `d3.max(sortedData, d => Math.max(Number(d[1]?.value) || 0, Number(d[2]?.value) || 0)) ?? 0`:
the maximum of the coerced cell values over the rows, `0` for an empty
dataset (`d3.max` of nothing is `undefined`). -/
def maxValue (rows : List Row) : ℚ :=
  match rows.map (fun r => max (toNum0 r.c1) (toNum0 r.c2)) with
  | [] => 0
  | v :: vs => vs.foldl max v

/-- A d3 linear scale: domain `[d0, d1]`, range `[r0, r1]`. -/
structure LinScale where
  d0 : ℚ
  d1 : ℚ
  r0 : ℚ
  r1 : ℚ
deriving DecidableEq

/-- d3's `normalize(a, b)`: the deinterpolation step of a linear scale.
A degenerate interval (`b - a = 0`) yields the constant `0.5`. -/
def normalize (a b x : ℚ) : ℚ := if b - a = 0 then 1 / 2 else (x - a) / (b - a)

/-- Applying a d3 linear scale: deinterpolate over the domain and
interpolate over the range. -/
def scaleApply (s : LinScale) (x : ℚ) : ℚ :=
  s.r0 + normalize s.d0 s.d1 x * (s.r1 - s.r0)

/-- `scale.invert(y)`: deinterpolate over the range, interpolate over the
domain. -/
def scaleInvert (s : LinScale) (y : ℚ) : ℚ :=
  s.d0 + normalize s.r0 s.r1 y * (s.d1 - s.d0)

/-- A d3 zoom transform: scale factor `k`, translation `(tx, ty)`. -/
structure ZoomTransform where
  k : ℚ
  tx : ℚ
  ty : ℚ

/-- `transform.invertX(r) = (r - tx) / k`. -/
def invertX (t : ZoomTransform) (r : ℚ) : ℚ := (r - t.tx) / t.k

/-- `transform.invertY(r) = (r - ty) / k`. -/
def invertY (t : ZoomTransform) (r : ℚ) : ℚ := (r - t.ty) / t.k

/-- `transform.rescaleX(x)`: copy of `x` whose domain is
`x.range().map(transform.invertX).map(x.invert)`. -/
def rescaleX (t : ZoomTransform) (s : LinScale) : LinScale :=
  ⟨scaleInvert s (invertX t s.r0), scaleInvert s (invertX t s.r1), s.r0, s.r1⟩

/-- `transform.rescaleY(y)`: copy of `y` whose domain is
`y.range().map(transform.invertY).map(y.invert)`. -/
def rescaleY (t : ZoomTransform) (s : LinScale) : LinScale :=
  ⟨scaleInvert s (invertY t s.r0), scaleInvert s (invertY t s.r1), s.r0, s.r1⟩

/-- `d3.zoomIdentity`: `k = 1`, `tx = 0`, `ty = 0`. -/
def identityTransform : ZoomTransform := ⟨1, 0, 0⟩

/-- `calculateLabelSkip(axisLength, totalLabels, labelSize)` of the source:
`availableSpace = axisLength - margin.top - margin.bottom`,
`labelsFit = Math.floor(availableSpace / labelSize)`,
`skipFactor = Math.ceil(totalLabels / labelsFit)`.
There is no guard on `labelsFit`: when it is `0` the division is a JS
division by zero producing `Infinity` (modelled as `none`); a negative
`labelsFit` produces a non-positive skip factor. -/
def calculateLabelSkip (axisLength totalLabels labelSize : ℚ) : Option ℤ :=
  let availableSpace := axisLength - marginTop - marginBottom
  let labelsFit : ℤ := ⌊availableSpace / labelSize⌋
  if labelsFit = 0 then none
  else some ⌈totalLabels / (labelsFit : ℚ)⌉

/-- First-occurrence-preserving de-duplication:
`Array.from(new Set(sortedData.map(d => d[0]?.value)))` keeps categories in
insertion order, first occurrence first. -/
def dedupFirst [DecidableEq γ] : List γ → List γ
  | [] => []
  | x :: xs => x :: (dedupFirst xs).filter (fun y => decide (y ≠ x))

/-- `uniqueCategories` of the source. -/
def uniqueCatsOf (rows : List Row) : List (Option String) :=
  dedupFirst (rows.map (·.cat))

/-- `Array.prototype.indexOf`: the index of the first occurrence, `-1`
when absent. -/
def jsIndexOf [DecidableEq γ] (l : List γ) (x : γ) : ℤ :=
  match l.findIdx? (fun y => decide (y = x)) with
  | some i => (i : ℤ)
  | none => -1

/-- The x-scale of the source: domain `[0, maxValue]`, range
`[newMargin.left, width - newMargin.right]` (`none` when the left margin
is `-Infinity`, i.e. for an empty dataset). -/
def xScaleE (rows : List Row) (width : ℚ) : Option LinScale :=
  (leftMarginE rows).map fun L => ⟨0, maxValue rows, L, width - marginRight⟩

/-- The y-scale of the source: a linear scale with domain
`[0, uniqueCategories.length - 1]` and range
`[newMargin.top, height - newMargin.bottom]`. -/
def yScaleOf (rows : List Row) (height : ℚ) : LinScale :=
  ⟨0, ((uniqueCatsOf rows).length : ℚ) - 1, marginTop, height - marginBottom⟩

/-- The y position a row is drawn at:
`yScale(uniqueCategories.indexOf(row[0]?.value))`. -/
def yPosQ (rows : List Row) (height : ℚ) (r : Row) : ℚ :=
  scaleApply (yScaleOf rows height) ((jsIndexOf (uniqueCatsOf rows) r.cat : ℤ) : ℚ)

/-- The two endpoints of a row's `lineData` entry:
`[{ x: Number(row[1]?.value) || 0, y: idx }, { x: Number(row[2]?.value) || 0, y: idx }]`
with `idx = uniqueCategories.indexOf(row[0]?.value)`. -/
def lineDataRow (cats : List (Option String)) (r : Row) : (ℚ × ℚ) × (ℚ × ℚ) :=
  ((toNum0 r.c1, ((jsIndexOf cats r.cat : ℤ) : ℚ)),
   (toNum0 r.c2, ((jsIndexOf cats r.cat : ℤ) : ℚ)))

/-- The stroke attribute of a visible line in `drawElements`:
`difference = d[1].x - d[0].x; difference >= 0 ? positiveLineColor : negativeLineColor`. -/
def segStroke (positiveLineColor negativeLineColor : String)
    (d : (ℚ × ℚ) × (ℚ × ℚ)) : String :=
  if 0 ≤ d.2.1 - d.1.1 then positiveLineColor else negativeLineColor

/-- A rendered connecting segment: the two (domain-space) endpoints of the
row's `lineData` entry and the stroke color assigned by `drawElements`. -/
structure Segment where
  p1 : ℚ × ℚ
  p2 : ℚ × ℚ
  stroke : String
deriving DecidableEq

/-- The segments `drawElements` emits for the (sorted) row list. -/
def segmentsOf (positiveLineColor negativeLineColor : String)
    (rows : List Row) : List Segment :=
  let cats := uniqueCatsOf rows
  rows.map fun r =>
    let d := lineDataRow cats r
    ⟨d.1, d.2, segStroke positiveLineColor negativeLineColor d⟩

/-- The `cx` of a first-measure dot:
`xScale(Number(d[1]?.value) || 0)` (undefined when the scale itself is
built from a `-Infinity` left margin). -/
def dotOneCx (rows : List Row) (width : ℚ) (r : Row) : Option ℚ :=
  (xScaleE rows width).map fun s => scaleApply s (toNum0 r.c1)

/-- The `cx` of a second-measure dot: `xScale(Number(d[2]?.value) || 0)`. -/
def dotTwoCx (rows : List Row) (width : ℚ) (r : Row) : Option ℚ :=
  (xScaleE rows width).map fun s => scaleApply s (toNum0 r.c2)

/-- The y-axis tick indices drawn by `drawAxis`:
`d3.range(0, uniqueCategories.length).filter((_, index) => index % ySkipFactor === 0)`. -/
def drawAxisYTickIdx (n : ℕ) (ySkipFactor : ℕ) : List ℕ :=
  (List.range n).filter (fun i => i % ySkipFactor == 0)

/-- The y-axis tick indices used inside the zoom handler:
`d3.range(0, uniqueCategories.length)` with no skip filter. -/
def zoomYTickIdx (n : ℕ) : List ℕ := List.range n

/-- The skip factors the zoom handler passes to `drawElements`:
`drawElements(newXScale, newYScale, 1, 1); // No skipping during zoom`.
They do not depend on the zoom factor or the base skip factors. -/
def zoomDrawSkips (baseSkipX baseSkipY : ℤ) (k : ℚ) : ℤ × ℤ :=
  (1, 1)

/-- Modelled from the spec: the spec's label-density law for zoom frames,
`effective skip = max(1, floor(baseSkip / k))`; stated for comparison with
what the zoom handler actually does. -/
def effectiveSkipSpec (baseSkip : ℤ) (k : ℚ) : ℤ :=
  max 1 ⌊(baseSkip : ℚ) / k⌋

/-! Model of `Number.prototype.toPrecision(3)` (the only formatting
primitive `formatNumber` uses), built from structurally recursive decimal
arithmetic so that concrete values evaluate inside proofs.  The model
covers the magnitudes this component produces; JS would switch to
exponential notation below `1e-7`, which no caller here can reach. -/

/-- Fuelled base-10 logarithm on naturals (exact once the fuel exceeds
the digit count). -/
def log10F (fuel n : ℕ) : ℕ :=
  if fuel = 0 then 0
  else if n < 10 then 0
  else log10F (fuel - 1) (n / 10) + 1
termination_by fuel
decreasing_by omega

/-- `⌊log10 n⌋` for `n ≥ 1`.  The fuel `400` covers every magnitude a
finite JS double can reach (at most `1.8e308`). -/
def log10 (n : ℕ) : ℕ := log10F 400 n

/-- Decimal rounding with ties away from zero on nonnegative input, as in
the ECMA `toPrecision` algorithm ("pick the larger n" on a tie). -/
def roundHalfUp (x : ℚ) : ℤ := ⌊x + 1 / 2⌋

/-- Fuelled search for the smallest `n ≥ 1` with `a * 10 ^ n ≥ 1`
(for `0 < a < 1`; the denominator of `a` bounds the search). -/
def negExpF (fuel : ℕ) (a : ℚ) : ℕ :=
  if fuel = 0 then 0
  else if 1 ≤ a * 10 then 1
  else negExpF (fuel - 1) (a * 10) + 1
termination_by fuel
decreasing_by omega

/-- The decimal exponent of `a > 0`: the `e` with `10 ^ e ≤ a < 10 ^ (e + 1)`. -/
def decExp (a : ℚ) : ℤ :=
  if 1 ≤ a then (log10 ⌊a⌋.toNat : ℤ)
  else -(negExpF a.den a : ℤ)

/-- The three significant digits of `a > 0`: a pair `(n, e)` with
`n ∈ [100, 999]` and `a` rounding to `n * 10 ^ (e - 2)`. -/
def prec3Digits (a : ℚ) : ℤ × ℤ :=
  let e := decExp a
  let n := roundHalfUp (a / (10 : ℚ) ^ (e - 2))
  if n = 1000 then (100, e + 1) else (n, e)

/-- Decimal digits of a natural number (fuelled). -/
def natDigitsChars (fuel n : ℕ) : List Char :=
  if fuel = 0 then []
  else if n < 10 then [Nat.digitChar n]
  else natDigitsChars (fuel - 1) (n / 10) ++ [Nat.digitChar (n % 10)]
termination_by fuel
decreasing_by omega

/-- Decimal string of a natural number. -/
def natDecimal (n : ℕ) : String := String.mk (natDigitsChars (n + 1) n)

/-- Rendering of `n * 10 ^ (e - 2)` (with `n ∈ [100, 999]`) the way
`toPrecision(3)` renders it: fixed notation while the exponent is below
the precision, exponential notation (`d.dde+X`) from `e = 3` up. -/
def renderPrec3 (n e : ℤ) : String :=
  let m := n.toNat
  let d2 := Nat.digitChar (m / 100)
  let d1 := Nat.digitChar (m / 10 % 10)
  let d0 := Nat.digitChar (m % 10)
  if e < 0 then
    String.mk ('0' :: '.' :: (List.replicate (-e - 1).toNat '0' ++ [d2, d1, d0]))
  else if e = 0 then String.mk [d2, '.', d1, d0]
  else if e = 1 then String.mk [d2, d1, '.', d0]
  else if e = 2 then String.mk [d2, d1, d0]
  else String.mk [d2, '.', d1, d0] ++ "e+" ++ natDecimal e.toNat

/-- `toPrecision(3)` on a positive value. -/
def toPrecision3Pos (a : ℚ) : String :=
  let p := prec3Digits a
  renderPrec3 p.1 p.2

/-- `value.toPrecision(3)`: zero renders as "0.00"; a negative value is
the sign followed by the rendering of its magnitude. -/
def toPrecision3 (q : ℚ) : String :=
  if q = 0 then "0.00"
  else if q < 0 then "-" ++ toPrecision3Pos (-q)
  else toPrecision3Pos q

/-- `formatNumber` of the d3 implementation: branch on the absolute
value at the 1e9 / 1e6 / 1e3 thresholds, divide the signed value by the
unit, format with `toPrecision(3)` and append the magnitude suffix. -/
def formatNumber (value : ℚ) : String :=
  let absValue := |value|
  if 1000000000 ≤ absValue then toPrecision3 (value / 1000000000) ++ "B"
  else if 1000000 ≤ absValue then toPrecision3 (value / 1000000) ++ "M"
  else if 1000 ≤ absValue then toPrecision3 (value / 1000) ++ "K"
  else toPrecision3 value

/-- The magnitude suffix selected by the absolute value, as the claim
describes it. -/
def magSuffix (v : ℚ) : String :=
  if 1000000000 ≤ |v| then "B" else if 1000000 ≤ |v| then "M" else "K"

/-- Evaluation form of the ceiling: lets `norm_num` (which evaluates
floors) evaluate ceilings of concrete rationals. -/
theorem ceil_eq_neg_floor (x : ℚ) : ⌈x⌉ = -⌊-x⌋ := by
  rw [Int.floor_neg, neg_neg]

/-! Helper lemmas for evaluating the fuelled decimal functions without
unfolding their recursion inside `simp`. -/

theorem log10F_eq (e : ℕ) : ∀ fuel n : ℕ, e < fuel → 10 ^ e ≤ n → n < 10 ^ (e + 1) →
    log10F fuel n = e := by
  induction e with
  | zero =>
    intro fuel n hf h1 h2
    unfold log10F
    rw [if_neg (by omega), if_pos (by simpa using h2)]
  | succ e ih =>
    intro fuel n hf h1 h2
    have h10 : 10 ^ (e + 1) ≥ 10 := by
      calc (10 : ℕ) = 10 ^ 1 := (pow_one 10).symm
      _ ≤ 10 ^ (e + 1) := Nat.pow_le_pow_right (by omega) (by omega)
    unfold log10F
    rw [if_neg (by omega), if_neg (by omega)]
    have hdl : 10 ^ e ≤ n / 10 := by
      rw [Nat.le_div_iff_mul_le (by omega)]
      calc 10 ^ e * 10 = 10 ^ (e + 1) := by ring
      _ ≤ n := h1
    have hdu : n / 10 < 10 ^ (e + 1) := by
      rw [Nat.div_lt_iff_lt_mul (by omega)]
      calc n < 10 ^ (e + 1 + 1) := h2
      _ = 10 ^ (e + 1) * 10 := by ring
    rw [ih (fuel - 1) (n / 10) (by omega) hdl hdu]

theorem log10_eq (n e : ℕ) (hf : e < 400) (h1 : 10 ^ e ≤ n) (h2 : n < 10 ^ (e + 1)) :
    log10 n = e :=
  log10F_eq e 400 n hf h1 h2

theorem decExp_eq (a : ℚ) (e : ℕ) (ha : 1 ≤ a) (hf : e < 400)
    (h1 : 10 ^ e ≤ ⌊a⌋.toNat) (h2 : ⌊a⌋.toNat < 10 ^ (e + 1)) :
    decExp a = e := by
  rw [decExp, if_pos ha, log10_eq ⌊a⌋.toNat e hf h1 h2]

/-- Demonstration rows of the spec's sorting/coloring scenario. -/
def northRow : Row := ⟨some "North", some 100, some 150⟩

/-- Demonstration rows of the spec's sorting/coloring scenario. -/
def southRow : Row := ⟨some "South", some 200, some 180⟩

/-- Demonstration rows of the spec's sorting/coloring scenario. -/
def eastRow : Row := ⟨some "East", some 50, some 50⟩

/-- The scenario dataset `[("North",100,150), ("South",200,180), ("East",50,50)]`. -/
def demoRows : List Row := [northRow, southRow, eastRow]

/-- Claim C2 (counterexample): for axis length 50 (≥ 0), label count 5
(≥ 1) and label footprint 20 (> 0) the computation divides by zero and
returns Infinity (`none`), and for axis length 0 it returns the negative
skip factor -1; there is no "treat labelsFit ≤ 0 as 1" guard, so the
result is not always a finite skip ≥ 1. -/
theorem c2_counterexample :
    calculateLabelSkip 50 5 20 = none ∧ calculateLabelSkip 0 5 20 = some (-1) := by
  constructor
  · norm_num [calculateLabelSkip, marginTop, marginBottom]
  · norm_num [calculateLabelSkip, marginTop, marginBottom, ceil_eq_neg_floor]

/-- Claim C2 (amended): when at least one label fits
(`⌊(axisLength - 50) / labelSize⌋ ≥ 1`) and the label count is ≥ 1, the
label-skip computation returns a finite skip factor ≥ 1 and no division
by zero occurs.  (The claim's guard for `labelsFit ≤ 0` does not exist in
the code: `labelsFit = 0` divides by zero and a negative `labelsFit`
yields a skip ≤ 0.) -/
theorem c2_label_skip_floor (axisLength totalLabels labelSize : ℚ)
    (hfit : 1 ≤ ⌊(axisLength - marginTop - marginBottom) / labelSize⌋)
    (hlab : 1 ≤ totalLabels) :
    ∃ s : ℤ, calculateLabelSkip axisLength totalLabels labelSize = some s ∧ 1 ≤ s := by
  have hFne : ⌊(axisLength - marginTop - marginBottom) / labelSize⌋ ≠ 0 := by omega
  have hFpos : (0 : ℚ) < (⌊(axisLength - marginTop - marginBottom) / labelSize⌋ : ℚ) := by
    have h1 : (1 : ℚ) ≤ (⌊(axisLength - marginTop - marginBottom) / labelSize⌋ : ℚ) := by
      exact_mod_cast hfit
    linarith
  refine ⟨⌈totalLabels / ((⌊(axisLength - marginTop - marginBottom) / labelSize⌋ : ℤ) : ℚ)⌉,
    ?_, ?_⟩
  · simp only [calculateLabelSkip]
    rw [if_neg hFne]
  · have hq : 0 < totalLabels / ((⌊(axisLength - marginTop - marginBottom) / labelSize⌋ : ℤ) : ℚ) :=
      div_pos (by linarith) hFpos
    have := Int.ceil_pos.mpr hq
    omega

/-- Claim C2 (witness): a 600-pixel axis with 10 labels of footprint 20
gets a finite skip factor ≥ 1. -/
theorem c2_witness :
    ∃ s : ℤ, calculateLabelSkip 600 10 20 = some s ∧ 1 ≤ s :=
  c2_label_skip_floor 600 10 20 (by norm_num [marginTop, marginBottom]) (by norm_num)

/-- Claim C3 (counterexample): on a zoom frame with base skip 4 and zoom
factor 1/2 the handler redraws with skip factor 1, while the claimed rule
`max(1, floor(baseSkip / k))` demands 8. -/
theorem c3_counterexample :
    (zoomDrawSkips 4 4 (1 / 2)).1 = 1 ∧ effectiveSkipSpec 4 (1 / 2) = 8 ∧ (1 : ℤ) ≠ 8 := by
  refine ⟨rfl, ?_, by norm_num⟩
  norm_num [effectiveSkipSpec]

/-- Claim C3 (amended): on every zoom/pan frame the label density is not
recomputed from the base skip factor: `drawElements` is invoked with skip
factors (1, 1) and the y axis is redrawn with every label index,
regardless of the zoom factor `k` and the base skips — the same tick set
as a base draw with skip factor 1. -/
theorem c3_zoom_redraws_all_labels (baseSkipX baseSkipY : ℤ) (k : ℚ) (n : ℕ) :
    zoomDrawSkips baseSkipX baseSkipY k = (1, 1)
  ∧ zoomYTickIdx n = drawAxisYTickIdx n 1 := by
  refine ⟨rfl, ?_⟩
  simp [zoomYTickIdx, drawAxisYTickIdx, Nat.mod_one]

/-- Claim C9: applying the identity zoom transform (k = 1, tx = 0, ty = 0)
to a scale pair with non-degenerate ranges reproduces the base scales'
output exactly at every domain value (hence within any floating-point
tolerance). -/
theorem c9_identity_rescale (sx sy : LinScale) (hx : sx.r0 ≠ sx.r1) (hy : sy.r0 ≠ sy.r1) :
    (∀ x, scaleApply (rescaleX identityTransform sx) x = scaleApply sx x)
  ∧ (∀ y, scaleApply (rescaleY identityTransform sy) y = scaleApply sy y) := by
  have hxs : rescaleX identityTransform sx = sx := by
    obtain ⟨d0, d1, r0, r1⟩ := sx
    have hne : r1 - r0 ≠ 0 := sub_ne_zero.mpr (Ne.symm hx)
    simp only [rescaleX, identityTransform, invertX, scaleInvert, normalize,
      LinScale.mk.injEq]
    rw [if_neg hne, if_neg hne]
    refine ⟨?_, ?_⟩
    · field_simp
    · field_simp
  have hys : rescaleY identityTransform sy = sy := by
    obtain ⟨d0, d1, r0, r1⟩ := sy
    have hne : r1 - r0 ≠ 0 := sub_ne_zero.mpr (Ne.symm hy)
    simp only [rescaleY, identityTransform, invertY, scaleInvert, normalize,
      LinScale.mk.injEq]
    rw [if_neg hne, if_neg hne]
    refine ⟨?_, ?_⟩
    · field_simp
    · field_simp
  rw [hxs, hys]
  exact ⟨fun x => rfl, fun y => rfl⟩

/-- Claim C9 (witness): the identity transform applied to the concrete
base pair (value scale `[0,200] → [48,770]`, category scale
`[0,2] → [20,570]`) changes nothing, checked at domain values 5 and 1. -/
theorem c9_witness :
    scaleApply (rescaleX identityTransform ⟨0, 200, 48, 770⟩) 5
        = scaleApply ⟨0, 200, 48, 770⟩ 5
      ∧ scaleApply (rescaleY identityTransform ⟨0, 2, 20, 570⟩) 1
        = scaleApply ⟨0, 2, 20, 570⟩ 1 :=
  ⟨(c9_identity_rescale ⟨0, 200, 48, 770⟩ ⟨0, 2, 20, 570⟩ (by norm_num) (by norm_num)).1 5,
   (c9_identity_rescale ⟨0, 200, 48, 770⟩ ⟨0, 2, 20, 570⟩ (by norm_num) (by norm_num)).2 1⟩

theorem sortData_eq_ascending (rows : List Row) :
    sortData rows "Ascending" = jsSortStable (jsLe cmpAsc) rows := by
  simp [sortData]

theorem sortData_eq_descending (rows : List Row) :
    sortData rows "Descending" = jsSortStable (jsLe cmpDesc) rows := by
  simp [sortData]

theorem sortData_eq_diffAscending (rows : List Row) :
    sortData rows "DifferenceAscending" = jsSortStable (jsLe cmpDiffAsc) rows := by
  simp [sortData]

theorem sortData_eq_diffDescending (rows : List Row) :
    sortData rows "DifferenceDescending" = jsSortStable (jsLe cmpDiffDesc) rows := by
  simp [sortData]

/-- Claim C1 (counterexample): a row whose `valueA` cell is missing is not
treated as having key 0 by `sortData`: `Number(undefined)` is `NaN`, the
comparator result is coerced to `+0`, and the row stays in place.  With
rows `[("A", 5, 5), ("B", missing, missing)]` and policy `Ascending` the
output keeps `A` (key 5) before `B` (claimed key 0), so the output is not
in non-decreasing missing-as-0 key order. -/
theorem c1_counterexample :
    sortData [⟨some "A", some 5, some 5⟩, ⟨some "B", none, none⟩] "Ascending"
        = [⟨some "A", some 5, some 5⟩, ⟨some "B", none, none⟩]
      ∧ ¬ ((sortData [⟨some "A", some 5, some 5⟩, ⟨some "B", none, none⟩] "Ascending").Pairwise
          fun a b => toNum0 a.c1 ≤ toNum0 b.c1) := by
  constructor
  · simp [sortData]
    norm_num [jsSortStable, jsInsert, jsLe, cmpAsc, subOpt]
  · simp [sortData]
    norm_num [jsSortStable, jsInsert, jsLe, cmpAsc, subOpt, List.pairwise_cons, toNum0]

/-- Claim C1 (amended): for rows whose two measure cells are all present
and numeric, `sortData` returns a permutation of the input ordered by the
claimed keys: `Ascending`/`Descending` non-decreasing/non-increasing in
`valueA`, `DifferenceAscending`/`DifferenceDescending`
non-decreasing/non-increasing in the signed difference
`valueB - valueA` (not its absolute value).  A missing or non-numeric
cell is not treated as 0: its comparisons evaluate to `NaN`, which the
sort treats as a tie, leaving such rows in their original place. -/
theorem c1_sort_orders_by_key (rows : List Row)
    (hnum : ∀ r ∈ rows, r.c1.isSome ∧ r.c2.isSome) :
    (List.Perm (sortData rows "Ascending") rows
      ∧ (sortData rows "Ascending").Pairwise fun a b => toNum0 a.c1 ≤ toNum0 b.c1)
  ∧ (List.Perm (sortData rows "Descending") rows
      ∧ (sortData rows "Descending").Pairwise fun a b => toNum0 b.c1 ≤ toNum0 a.c1)
  ∧ (List.Perm (sortData rows "DifferenceAscending") rows
      ∧ (sortData rows "DifferenceAscending").Pairwise
          fun a b => toNum0 a.c2 - toNum0 a.c1 ≤ toNum0 b.c2 - toNum0 b.c1)
  ∧ (List.Perm (sortData rows "DifferenceDescending") rows
      ∧ (sortData rows "DifferenceDescending").Pairwise
          fun a b => toNum0 b.c2 - toNum0 b.c1 ≤ toNum0 a.c2 - toNum0 a.c1) := by
  have hsome : ∀ r ∈ rows, ∃ x y : ℚ, r.c1 = some x ∧ r.c2 = some y := by
    intro r hr
    obtain ⟨h1, h2⟩ := hnum r hr
    obtain ⟨x, hx⟩ := Option.isSome_iff_exists.mp h1
    obtain ⟨y, hy⟩ := Option.isSome_iff_exists.mp h2
    exact ⟨x, y, hx, hy⟩
  refine ⟨⟨?_, ?_⟩, ⟨?_, ?_⟩, ⟨?_, ?_⟩, ⟨?_, ?_⟩⟩
  · rw [sortData_eq_ascending]; exact jsSortStable_perm _ rows
  · rw [sortData_eq_ascending]
    refine pairwise_sort_of_iff _ _ rows ?_ (fun a _ b _ => le_total _ _)
      (fun a _ b _ c _ h1 h2 => le_trans h1 h2)
    intro a ha b hb
    obtain ⟨xa, ya, hxa, hya⟩ := hsome a ha
    obtain ⟨xb, yb, hxb, hyb⟩ := hsome b hb
    simp [jsLe, cmpAsc, subOpt, hxa, hxb, toNum0, sub_nonpos]
  · rw [sortData_eq_descending]; exact jsSortStable_perm _ rows
  · rw [sortData_eq_descending]
    refine pairwise_sort_of_iff _ _ rows ?_ (fun a _ b _ => le_total _ _)
      (fun a _ b _ c _ h1 h2 => le_trans h2 h1)
    intro a ha b hb
    obtain ⟨xa, ya, hxa, hya⟩ := hsome a ha
    obtain ⟨xb, yb, hxb, hyb⟩ := hsome b hb
    simp [jsLe, cmpDesc, subOpt, hxa, hxb, toNum0, sub_nonpos]
  · rw [sortData_eq_diffAscending]; exact jsSortStable_perm _ rows
  · rw [sortData_eq_diffAscending]
    refine pairwise_sort_of_iff _ _ rows ?_ (fun a _ b _ => le_total _ _)
      (fun a _ b _ c _ h1 h2 => le_trans h1 h2)
    intro a ha b hb
    obtain ⟨xa, ya, hxa, hya⟩ := hsome a ha
    obtain ⟨xb, yb, hxb, hyb⟩ := hsome b hb
    simp [jsLe, cmpDiffAsc, subOpt, hxa, hya, hxb, hyb, toNum0, sub_nonpos]
  · rw [sortData_eq_diffDescending]; exact jsSortStable_perm _ rows
  · rw [sortData_eq_diffDescending]
    refine pairwise_sort_of_iff _ _ rows ?_ (fun a _ b _ => le_total _ _)
      (fun a _ b _ c _ h1 h2 => le_trans h2 h1)
    intro a ha b hb
    obtain ⟨xa, ya, hxa, hya⟩ := hsome a ha
    obtain ⟨xb, yb, hxb, hyb⟩ := hsome b hb
    simp [jsLe, cmpDiffDesc, subOpt, hxa, hya, hxb, hyb, toNum0, sub_nonpos]

/-- Claim C1 (witness): the scenario rows, all cells numeric, sorted with
`DifferenceDescending`, come out in non-increasing signed-difference
order. -/
theorem c1_witness :
    (sortData demoRows "DifferenceDescending").Pairwise
      (fun a b => toNum0 b.c2 - toNum0 b.c1 ≤ toNum0 a.c2 - toNum0 a.c1) :=
  ((c1_sort_orders_by_key demoRows (by
    intro r hr
    simp [demoRows, northRow, southRow, eastRow] at hr
    rcases hr with rfl | rfl | rfl <;> simp)).2.2.2).2

/-- Claim C4: in `drawElements` the connecting segment of each row is
colored by the sign of `valueB - valueA` on the coerced cell values: a
difference ≥ 0 (including 0) gets the positive line color and a
difference < 0 gets the negative line color. -/
theorem c4_segment_color_by_sign (pos neg : String) (hpn : pos ≠ neg)
    (rows : List Row) (i : ℕ) (r : Row) (hr : rows[i]? = some r) :
    ∃ s : Segment, (segmentsOf pos neg rows)[i]? = some s
      ∧ (s.stroke = pos ↔ 0 ≤ toNum0 r.c2 - toNum0 r.c1)
      ∧ (s.stroke = neg ↔ toNum0 r.c2 - toNum0 r.c1 < 0) := by
  have hd : (lineDataRow (uniqueCatsOf rows) r).2.1 - (lineDataRow (uniqueCatsOf rows) r).1.1
      = toNum0 r.c2 - toNum0 r.c1 := by simp [lineDataRow]
  refine ⟨⟨(lineDataRow (uniqueCatsOf rows) r).1, (lineDataRow (uniqueCatsOf rows) r).2,
    segStroke pos neg (lineDataRow (uniqueCatsOf rows) r)⟩, ?_, ?_, ?_⟩
  · simp [segmentsOf, List.getElem?_map, hr]
  · simp only [segStroke, hd]
    by_cases h : 0 ≤ toNum0 r.c2 - toNum0 r.c1
    · rw [if_pos h]; simp [h]
    · rw [if_neg h]; simp [Ne.symm hpn, h]
  · simp only [segStroke, hd]
    by_cases h : 0 ≤ toNum0 r.c2 - toNum0 r.c1
    · rw [if_pos h]; simp [hpn, not_lt.mpr h]
    · rw [if_neg h]; simp [not_le.mp h]

/-- Scenario evaluation: `DifferenceDescending` orders the demo rows
`North(+50), East(0), South(-20)`, as in the spec's scenario. -/
theorem sortDemo_eval :
    sortData demoRows "DifferenceDescending" = [northRow, eastRow, southRow] := by
  simp [sortData, demoRows, northRow, southRow, eastRow]
  norm_num [jsSortStable, jsInsert, jsLe, cmpDiffDesc, subOpt]

/-- Claim C4 (witness): in the sorted scenario, East's segment (difference
0, drawn at index 1) is positive-colored — the ≥ 0 tie-break. -/
theorem c4_witness :
    ∃ s : Segment,
      (segmentsOf "green" "red" (sortData demoRows "DifferenceDescending"))[1]? = some s
      ∧ (s.stroke = "green" ↔ 0 ≤ toNum0 eastRow.c2 - toNum0 eastRow.c1)
      ∧ (s.stroke = "red" ↔ toNum0 eastRow.c2 - toNum0 eastRow.c1 < 0) :=
  c4_segment_color_by_sign "green" "red" (by decide)
    (sortData demoRows "DifferenceDescending") 1 eastRow
    (by rw [sortDemo_eval]; rfl)

/-- Claim C5 (counterexample): missing cells are not coerced to 0 in the
sort-key comparison: with rows `[("X", 7, 7), ("Y", missing, missing)]`
and policy `Ascending`, the missing-cell row compares as `NaN` (a tie)
and stays last even though its claimed coerced key 0 is smaller than 7,
so the output is not ordered by the coerced keys. -/
theorem c5_counterexample :
    toNum0 none = 0
  ∧ sortData [⟨some "X", some 7, some 7⟩, ⟨some "Y", none, none⟩] "Ascending"
      = [⟨some "X", some 7, some 7⟩, ⟨some "Y", none, none⟩]
  ∧ ¬ ((sortData [⟨some "X", some 7, some 7⟩, ⟨some "Y", none, none⟩] "Ascending").Pairwise
        fun a b => toNum0 a.c1 ≤ toNum0 b.c1) := by
  refine ⟨rfl, ?_, ?_⟩
  · simp [sortData]
    norm_num [jsSortStable, jsInsert, jsLe, cmpAsc, subOpt]
  · simp [sortData]
    norm_num [jsSortStable, jsInsert, jsLe, cmpAsc, subOpt, List.pairwise_cons, toNum0]

/-- Claim C5 (amended): absent/non-numeric cells are coerced to 0 at every
geometry use — a row with a missing cell produces exactly the marks of
the same row with that cell 0, in `lineData` and in the dot positions, so
`NaN` never reaches a mark position — but the sort-key comparison of
`sortData` uses `Number()` with no fallback: a missing cell makes the
comparison `NaN`, which the sort treats as a tie in both directions
rather than as key 0. -/
theorem c5_coerce_in_geometry_not_in_sort (rows : List Row) (width : ℚ)
    (cats : List (Option String)) (r a b : Row) (hab : a.c1 = none ∨ b.c1 = none) :
    lineDataRow cats { r with c1 := none } = lineDataRow cats { r with c1 := some 0 }
  ∧ lineDataRow cats { r with c2 := none } = lineDataRow cats { r with c2 := some 0 }
  ∧ dotOneCx rows width { r with c1 := none } = dotOneCx rows width { r with c1 := some 0 }
  ∧ dotTwoCx rows width { r with c2 := none } = dotTwoCx rows width { r with c2 := some 0 }
  ∧ jsLe cmpAsc a b = true ∧ jsLe cmpAsc b a = true := by
  refine ⟨by simp [lineDataRow, toNum0], by simp [lineDataRow, toNum0],
    by simp [dotOneCx, toNum0], by simp [dotTwoCx, toNum0], ?_, ?_⟩
  · rcases hab with ha | hb
    · cases hcb : b.c1 <;> simp [jsLe, cmpAsc, subOpt, ha, hcb]
    · cases hca : a.c1 <;> simp [jsLe, cmpAsc, subOpt, hca, hb]
  · rcases hab with ha | hb
    · cases hcb : b.c1 <;> simp [jsLe, cmpAsc, subOpt, ha, hcb]
    · cases hca : a.c1 <;> simp [jsLe, cmpAsc, subOpt, hca, hb]

/-- Claim C5 (witness): concrete instance — a North row with a knocked-out
cell draws exactly like the same row with that cell 0, and a row with a
missing `valueA` ties with North in both comparison directions. -/
theorem c5_witness :
    lineDataRow [] { northRow with c1 := none } = lineDataRow [] { northRow with c1 := some 0 }
  ∧ lineDataRow [] { northRow with c2 := none } = lineDataRow [] { northRow with c2 := some 0 }
  ∧ dotOneCx demoRows 800 { northRow with c1 := none }
      = dotOneCx demoRows 800 { northRow with c1 := some 0 }
  ∧ dotTwoCx demoRows 800 { northRow with c2 := none }
      = dotTwoCx demoRows 800 { northRow with c2 := some 0 }
  ∧ jsLe cmpAsc ⟨some "Y", none, none⟩ northRow = true
  ∧ jsLe cmpAsc northRow ⟨some "Y", none, none⟩ = true :=
  c5_coerce_in_geometry_not_in_sort demoRows 800 [] northRow
    ⟨some "Y", none, none⟩ northRow (Or.inl rfl)

/-- Claim C6 (counterexample): for the non-empty all-zero dataset
`[("A", 0, 0)]` and width 800 the observed maximum is 0 and the left
inset is 48, but the scale maps the domain value 0 (the domain's only
point, its minimum and maximum) to the range midpoint 409 — not to the
left inset and not to the right range end — so the scale is not the
linear map of `[0, max]` onto `[48, 770]` that the claim describes. -/
theorem c6_counterexample :
    leftMarginE [⟨some "A", some 0, some 0⟩] = some 48
  ∧ maxValue [⟨some "A", some 0, some 0⟩] = 0
  ∧ (xScaleE [⟨some "A", some 0, some 0⟩] 800).map (fun s => scaleApply s 0) = some 409
  ∧ (409 : ℚ) ≠ 48 ∧ (409 : ℚ) ≠ 800 - marginRight := by
  refine ⟨?_, ?_, ?_, by norm_num, by norm_num [marginRight]⟩
  · norm_num [leftMarginE, maxLabelLengthE, catStr, show ("A" : String).length = 1 from rfl]
  · norm_num [maxValue, toNum0]
  · norm_num [xScaleE, leftMarginE, maxLabelLengthE, catStr, maxValue, toNum0, scaleApply,
      normalize, marginRight, show ("A" : String).length = 1 from rfl]

/-- Claim C6 (amended): for every non-empty list of rows with a positive
observed maximum and every viewport width, the value scale is the linear
map of the domain `[0, maxValue]` onto the range
`[leftInset, width - 30]`, with
`leftInset = min(40 + 8 * maxCategoryLabelLength, 100)` computed from
the current data's longest category label; a zero observed maximum
degenerates the scale to the constant range midpoint. -/
theorem c6_xscale_linear (rows : List Row) (width : ℚ)
    (hne : rows ≠ []) (hmax : 0 < maxValue rows) :
    ∃ (n : ℕ) (L : ℚ) (s : LinScale),
      maxLabelLengthE rows = some n
      ∧ leftMarginE rows = some L
      ∧ L = min (40 + (n : ℚ) * 8) 100
      ∧ xScaleE rows width = some s
      ∧ scaleApply s 0 = L
      ∧ scaleApply s (maxValue rows) = width - marginRight
      ∧ ∀ x, scaleApply s x = L + x / maxValue rows * (width - marginRight - L) := by
  obtain ⟨r, rs, rfl⟩ := List.exists_cons_of_ne_nil hne
  have hml : maxLabelLengthE (r :: rs)
      = some (((rs.map fun d => (catStr d.cat).length).foldl max ((catStr r.cat).length))) := by
    simp [maxLabelLengthE]
  have hm : maxValue (r :: rs) - 0 ≠ 0 := by
    rw [sub_zero]
    exact ne_of_gt hmax
  refine ⟨_, _, ⟨0, maxValue (r :: rs),
    min (40 + (((rs.map fun d => (catStr d.cat).length).foldl max ((catStr r.cat).length) : ℕ)
      : ℚ) * 8) 100, width - marginRight⟩, hml, ?_, rfl, ?_, ?_, ?_, ?_⟩
  · simp [leftMarginE, hml]
  · simp [xScaleE, leftMarginE, hml]
  · simp only [scaleApply, normalize, if_neg hm]
    norm_num
  · simp only [scaleApply, normalize, if_neg hm]
    rw [sub_zero, div_self (ne_of_gt hmax)]
    ring
  · intro x
    simp only [scaleApply, normalize, if_neg hm]
    rw [sub_zero, sub_zero]

/-- Claim C6 (witness): the scenario dataset (max value 200, longest
label "North") at width 800 gets left inset `min(40 + 5*8, 100) = 80` and
the linear scale `[0,200] → [80,770]`. -/
theorem c6_witness :
    ∃ (n : ℕ) (L : ℚ) (s : LinScale),
      maxLabelLengthE demoRows = some n
      ∧ leftMarginE demoRows = some L
      ∧ L = min (40 + (n : ℚ) * 8) 100
      ∧ xScaleE demoRows 800 = some s
      ∧ scaleApply s 0 = L
      ∧ scaleApply s (maxValue demoRows) = 800 - marginRight
      ∧ ∀ x, scaleApply s x = L + x / maxValue demoRows * (800 - marginRight - L) :=
  c6_xscale_linear demoRows 800 (by simp [demoRows])
    (by norm_num [maxValue, demoRows, northRow, southRow, eastRow, toNum0, max_def])

/-- Claim C7 (counterexample): for a zero-row dataset the left inset is
not a finite number: `Math.max()` over the empty list of label lengths is
`-Infinity` (modelled `none`), and `min(40 + 8 * (-Infinity), 100)`
propagates it into the layout, contradicting the claim that all layout
quantities, including the left inset, are finite. -/
theorem c7_counterexample :
    maxLabelLengthE ([] : List Row) = none ∧ leftMarginE ([] : List Row) = none :=
  ⟨rfl, rfl⟩

/-- Claim C7 (amended): the pipeline is total and for a zero-row dataset
the value-scale domain maximum is 0, but the left inset is `-Infinity`
(`Math.max()` of an empty list), not a finite number; for a non-empty
single-category dataset every per-row position is a well-defined finite
number with no division by zero: the degenerate category scale maps
every row to the vertical range midpoint, and both dot x-positions are
defined. -/
theorem c7_degenerate_pipeline (rows : List Row) (width height : ℚ) (r : Row)
    (hne : rows ≠ []) (hone : (uniqueCatsOf rows).length = 1) :
    maxValue ([] : List Row) = 0
  ∧ leftMarginE ([] : List Row) = none
  ∧ yPosQ rows height r = marginTop + 1 / 2 * (height - marginBottom - marginTop)
  ∧ (∃ x1 : ℚ, dotOneCx rows width r = some x1)
  ∧ (∃ x2 : ℚ, dotTwoCx rows width r = some x2) := by
  refine ⟨rfl, rfl, ?_, ?_, ?_⟩
  · simp only [yPosQ, yScaleOf, scaleApply, normalize, hone]
    norm_num
  · obtain ⟨rr, rs, rfl⟩ := List.exists_cons_of_ne_nil hne
    simp [dotOneCx, xScaleE, leftMarginE, maxLabelLengthE]
  · obtain ⟨rr, rs, rfl⟩ := List.exists_cons_of_ne_nil hne
    simp [dotTwoCx, xScaleE, leftMarginE, maxLabelLengthE]

/-- Claim C7 (witness): the single-category dataset `[("East", 50, 50)]`
at viewport 800 x 600 puts the row at the vertical midpoint
`20 + (570 - 20) / 2 = 295` with defined dot positions. -/
theorem c7_witness :
    maxValue ([] : List Row) = 0
  ∧ leftMarginE ([] : List Row) = none
  ∧ yPosQ [eastRow] 600 eastRow = marginTop + 1 / 2 * (600 - marginBottom - marginTop)
  ∧ (∃ x1 : ℚ, dotOneCx [eastRow] 800 eastRow = some x1)
  ∧ (∃ x2 : ℚ, dotTwoCx [eastRow] 800 eastRow = some x2) :=
  c7_degenerate_pipeline [eastRow] 800 600 eastRow (by simp)
    (by simp [uniqueCatsOf, dedupFirst])

/-- Claim C8: the number formatter follows the three-significant-digit
magnitude-suffix rule on the scenario values:
`formatNumber(1500000) = "1.50M"`, `formatNumber(999) = "999"`,
`formatNumber(2300000000) = "2.30B"`. -/
theorem c8_formatNumber_scenarios :
    formatNumber 1500000 = "1.50M"
  ∧ formatNumber 999 = "999"
  ∧ formatNumber 2300000000 = "2.30B" := by
  refine ⟨?_, ?_, ?_⟩
  · have h : formatNumber 1500000 = toPrecision3 (3 / 2) ++ "M" := by
      unfold formatNumber
      norm_num
    have hp : prec3Digits (3 / 2) = (150, 0) := by
      have he : decExp (3 / 2) = (0 : ℕ) :=
        decExp_eq (3 / 2) 0 (by norm_num) (by norm_num) (by norm_num) (by norm_num)
      norm_num [prec3Digits, he, roundHalfUp]
    rw [h]
    norm_num [toPrecision3, toPrecision3Pos, hp, renderPrec3]
    decide
  · have h : formatNumber 999 = toPrecision3 999 := by
      simp only [formatNumber]
      rw [if_neg (by norm_num), if_neg (by norm_num), if_neg (by norm_num)]
    have hp : prec3Digits 999 = (999, 2) := by
      have he : decExp 999 = (2 : ℕ) :=
        decExp_eq 999 2 (by norm_num) (by norm_num) (by norm_num) (by norm_num)
      norm_num [prec3Digits, he, roundHalfUp]
    rw [h]
    norm_num [toPrecision3, toPrecision3Pos, hp, renderPrec3]
    decide
  · have h : formatNumber 2300000000 = toPrecision3 (23 / 10) ++ "B" := by
      unfold formatNumber
      norm_num
    have hp : prec3Digits (23 / 10) = (230, 0) := by
      have he : decExp (23 / 10) = (0 : ℕ) :=
        decExp_eq (23 / 10) 0 (by norm_num) (by norm_num) (by norm_num) (by norm_num)
      norm_num [prec3Digits, he, roundHalfUp]
    rw [h]
    norm_num [toPrecision3, toPrecision3Pos, hp, renderPrec3]
    decide

/-- `toPrecision(3)` of a negative value is the sign followed by
`toPrecision(3)` of its magnitude. -/
theorem toPrecision3_of_neg (q : ℚ) (hq : q < 0) :
    toPrecision3 q = "-" ++ toPrecision3 (-q) := by
  have hpos : 0 < -q := neg_pos.mpr hq
  simp only [toPrecision3]
  rw [if_neg (ne_of_lt hq), if_pos hq, if_neg (ne_of_gt hpos),
    if_neg (not_lt.mpr (le_of_lt hpos))]

/-- Claim C10: `formatNumber` is total (a function on all of `ℚ`), and
for every value of magnitude ≥ 1000 it selects the K/M/B suffix from the
absolute value while the body carries the sign: the formatted string is a
body followed by the magnitude suffix of `|v|`, and formatting a negative
value is "-" followed by the formatting of its magnitude. -/
theorem c10_formatNumber_suffix_and_sign (v : ℚ) (hv : 1000 ≤ |v|) :
    (∃ body : String, formatNumber v = body ++ magSuffix v)
  ∧ (v < 0 → formatNumber v = "-" ++ formatNumber (-v)) := by
  rcases le_or_lt 1000000000 |v| with hB | hB
  · have h1 : formatNumber v = toPrecision3 (v / 1000000000) ++ "B" := by
      simp only [formatNumber]
      rw [if_pos hB]
    have h2 : formatNumber (-v) = toPrecision3 (-v / 1000000000) ++ "B" := by
      simp only [formatNumber]
      rw [abs_neg, if_pos hB]
    have h3 : magSuffix v = "B" := by
      simp only [magSuffix]
      rw [if_pos hB]
    refine ⟨⟨toPrecision3 (v / 1000000000), by rw [h1, h3]⟩, fun hneg => ?_⟩
    have hq : v / 1000000000 < 0 := div_neg_of_neg_of_pos hneg (by norm_num)
    rw [h1, h2, toPrecision3_of_neg _ hq, neg_div, String.append_assoc]
  · rcases le_or_lt 1000000 |v| with hM | hM
    · have h1 : formatNumber v = toPrecision3 (v / 1000000) ++ "M" := by
        simp only [formatNumber]
        rw [if_neg (not_le.mpr hB), if_pos hM]
      have h2 : formatNumber (-v) = toPrecision3 (-v / 1000000) ++ "M" := by
        simp only [formatNumber]
        rw [abs_neg, if_neg (not_le.mpr hB), if_pos hM]
      have h3 : magSuffix v = "M" := by
        simp only [magSuffix]
        rw [if_neg (not_le.mpr hB), if_pos hM]
      refine ⟨⟨toPrecision3 (v / 1000000), by rw [h1, h3]⟩, fun hneg => ?_⟩
      have hq : v / 1000000 < 0 := div_neg_of_neg_of_pos hneg (by norm_num)
      rw [h1, h2, toPrecision3_of_neg _ hq, neg_div, String.append_assoc]
    · have h1 : formatNumber v = toPrecision3 (v / 1000) ++ "K" := by
        simp only [formatNumber]
        rw [if_neg (not_le.mpr hB), if_neg (not_le.mpr hM), if_pos hv]
      have h2 : formatNumber (-v) = toPrecision3 (-v / 1000) ++ "K" := by
        simp only [formatNumber]
        rw [abs_neg, if_neg (not_le.mpr hB), if_neg (not_le.mpr hM), if_pos hv]
      have h3 : magSuffix v = "K" := by
        simp only [magSuffix]
        rw [if_neg (not_le.mpr hB), if_neg (not_le.mpr hM)]
      refine ⟨⟨toPrecision3 (v / 1000), by rw [h1, h3]⟩, fun hneg => ?_⟩
      have hq : v / 1000 < 0 := div_neg_of_neg_of_pos hneg (by norm_num)
      rw [h1, h2, toPrecision3_of_neg _ hq, neg_div, String.append_assoc]

/-- Claim C10 (witness): `formatNumber(-1500000)` is a body followed by
the suffix "M" selected from the absolute value, equals "-" followed by
`formatNumber` of the magnitude, and evaluates to "-1.50M". -/
theorem c10_witness :
    (∃ body : String, formatNumber (-1500000) = body ++ magSuffix (-1500000))
  ∧ ((-1500000 : ℚ) < 0 → formatNumber (-1500000) = "-" ++ formatNumber (-(-1500000)))
  ∧ formatNumber (-1500000) = "-1.50M" := by
  obtain ⟨h1, h2⟩ := c10_formatNumber_suffix_and_sign (-1500000) (by norm_num)
  refine ⟨h1, h2, ?_⟩
  have h : formatNumber (-1500000) = toPrecision3 (-(3 / 2)) ++ "M" := by
    unfold formatNumber
    norm_num
  have hp : prec3Digits (3 / 2) = (150, 0) := by
    have he : decExp (3 / 2) = (0 : ℕ) :=
      decExp_eq (3 / 2) 0 (by norm_num) (by norm_num) (by norm_num) (by norm_num)
    norm_num [prec3Digits, he, roundHalfUp]
  rw [h]
  norm_num [toPrecision3, toPrecision3Pos, hp, renderPrec3]
  decide

end ConnectedDotPlot
